import Mathlib

/-
Verification of the llm-chat-app streaming relay.

The development shallowly embeds the three source files of the repository:
  public/chat.js      (frame decoder `consumeSseEvents`, realtime client)
  src/index.ts        (worker: `handleChatRequest`, `accumulateAndPersist`,
                       `handleRealtime` with its `flushBuffer` loops)
  src/conversation_do.ts (the Durable Object `ConversationDO.fetch`)

Text is modelled as `List Char`, byte streams as `List Nat`, JSON values by an
explicit inductive with an executable parser standing in for `JSON.parse`.
-/

set_option autoImplicit false

namespace LlmChat

/-! ## Frame decoder (consumeSseEvents in chat.js, consumeBuffer in index.ts)

The decoder keeps a residual text buffer.  Each pass removes every carriage
return, repeatedly splits off the text before the first `"\n\n"` as one
record, collects the `data:`-marked lines of the record (marker stripped,
leading whitespace trimmed by `trimStart`), joins them with newlines into one
event payload, and keeps the unmatched tail as the new residual buffer. -/

/-- Code points trimmed by the JavaScript `String.prototype.trimStart`
(ECMAScript WhiteSpace and LineTerminator). -/
def isJsSpaceChar (c : Char) : Bool :=
  c = ' ' ∨ c = '\t' ∨ c = '\n' ∨ c = '\r' ∨ c = '\x0b' ∨ c = '\x0c' ∨
  c = ' ' ∨ c = '﻿' ∨ c = ' ' ∨ (' ' ≤ c ∧ c ≤ ' ') ∨
  c = ' ' ∨ c = ' ' ∨ c = ' ' ∨ c = ' ' ∨ c = '　'

/-- JavaScript `s.trimStart()` restricted to a single line. -/
def jsTrimStart (s : List Char) : List Char := s.dropWhile isJsSpaceChar

/-- `buffer.replace(/\r/g, "")` : delete every carriage return. -/
def removeCR (s : List Char) : List Char := s.filter (fun c => c ≠ '\r')

/-- The `"data:"` marker tested by `line.startsWith("data:")`. -/
def dataMarker : List Char := "data:".data

/-- JavaScript `rawEvent.split("\n")`: `[]` splits to `[[]]`, a trailing
newline yields a trailing empty line. -/
def splitOnNl : List Char → List (List Char)
  | [] => [[]]
  | c :: rest =>
    if c = '\n' then [] :: splitOnNl rest
    else
      match splitOnNl rest with
      | l :: ls => (c :: l) :: ls
      | [] => [[c]]

/-- JavaScript `dataLines.join("\n")`. -/
def joinNl : List (List Char) → List Char
  | [] => []
  | [l] => l
  | l :: ls => l ++ '\n' :: joinNl ls

/-- One line of a record: `if (line.startsWith("data:"))
dataLines.push(line.slice(5).trimStart())`. -/
def dataLineValue (line : List Char) : Option (List Char) :=
  if dataMarker.isPrefixOf line then some (jsTrimStart (line.drop 5)) else none

/-- Payload of one record: the `data:` lines joined with newlines; `none` when
the record has no `data:` line (`if (dataLines.length === 0) continue`). -/
def recordPayload (r : List Char) : Option (List Char) :=
  let ds := (splitOnNl r).filterMap dataLineValue
  if ds = [] then none else some (joinNl ds)

/-- The events contributed by one record (zero or one). -/
def recordEvents (r : List Char) : List (List Char) :=
  match recordPayload r with
  | none => []
  | some p => [p]

/-- Locate the first `"\n\n"` (the `normalized.indexOf("\n\n")` test): returns
the text before it and the text after it. -/
def splitFirstSep : List Char → Option (List Char × List Char)
  | [] => none
  | [_] => none
  | c1 :: c2 :: rest =>
    if c1 = '\n' ∧ c2 = '\n' then some ([], rest)
    else
      match splitFirstSep (c2 :: rest) with
      | none => none
      | some (pre, post) => some (c1 :: pre, post)

/-- Fuelled version of the `while ((eventEndIndex = normalized.indexOf("\n\n"))
!== -1)` loop over a carriage-return-free buffer. -/
def goF : Nat → List Char → List (List Char) × List Char
  | 0, s => ([], s)
  | fuel + 1, s =>
    match splitFirstSep s with
    | none => ([], s)
    | some (pre, post) =>
      let p := goF fuel post
      (recordEvents pre ++ p.1, p.2)

/-- The record-extraction loop: every complete record becomes at most one
event, the tail after the last separator is the residual. -/
def goRecords (s : List Char) : List (List Char) × List Char := goF s.length s

/-- `consumeSseEvents` (chat.js) / `consumeBuffer` (index.ts): normalize by
deleting `\r`, then run the record loop.  Returns `(events, residual)`. -/
def consumeSseEvents (buffer : List Char) : List (List Char) × List Char :=
  goRecords (removeCR buffer)

/-! ## Streaming UTF-8 byte decoding (`new TextDecoder()` with `stream: true`)

Modelled byte-by-byte after the WHATWG Encoding Standard UTF-8 decoder: the
state carries the partial code point, the count of continuation bytes still
needed, and the admissible range for the next byte.  Invalid bytes emit
U+FFFD; an invalid continuation byte re-enters the start state with that
byte. -/

structure Utf8State where
  cp : Nat
  needed : Nat
  lo : Nat
  hi : Nat
  deriving Repr, DecidableEq

def utf8Init : Utf8State := ⟨0, 0, 0x80, 0xBF⟩

/-- Decode one byte in the start state. -/
def utf8Start (b : Nat) : Utf8State × List Char :=
  if b ≤ 0x7F then (utf8Init, [Char.ofNat b])
  else if 0xC2 ≤ b ∧ b ≤ 0xDF then ({ utf8Init with cp := b % 0x20, needed := 1 }, [])
  else if 0xE0 ≤ b ∧ b ≤ 0xEF then
    ({ cp := b % 0x10, needed := 2,
       lo := if b = 0xE0 then 0xA0 else 0x80,
       hi := if b = 0xED then 0x9F else 0xBF }, [])
  else if 0xF0 ≤ b ∧ b ≤ 0xF4 then
    ({ cp := b % 0x8, needed := 3,
       lo := if b = 0xF0 then 0x90 else 0x80,
       hi := if b = 0xF4 then 0x8F else 0xBF }, [])
  else (utf8Init, ['�'])

/-- Decode one byte in an arbitrary state. -/
def utf8Byte (st : Utf8State) (b : Nat) : Utf8State × List Char :=
  if st.needed = 0 then utf8Start b
  else if st.lo ≤ b ∧ b ≤ st.hi then
    let cp2 := st.cp * 64 + b % 64
    if st.needed = 1 then (utf8Init, [Char.ofNat cp2])
    else ({ cp := cp2, needed := st.needed - 1, lo := 0x80, hi := 0xBF }, [])
  else
    let p := utf8Start b
    (p.1, '�' :: p.2)

/-- `decoder.decode(value, { stream: true })`: fold the byte DFA over one
chunk, carrying the state to the next chunk. -/
def utf8Chunk (st : Utf8State) : List Nat → Utf8State × List Char
  | [] => (st, [])
  | b :: bs =>
    let p := utf8Byte st b
    let q := utf8Chunk p.1 bs
    (q.1, p.2 ++ q.2)

/-! ## The full decoder pipeline driven by the read loop

`while (true) { const { done, value } = await reader.read(); if (done)
{ buffer += "\n\n"; consume(); break; } buffer += decoder.decode(value,
{ stream: true }); consume(); }` -/

structure DecState where
  u : Utf8State
  buf : List Char
  deriving Repr, DecidableEq

def decInit : DecState := ⟨utf8Init, []⟩

/-- Process one byte chunk: decode it, append to the buffer, consume. -/
def stepChunk (st : DecState) (chunk : List Nat) : DecState × List (List Char) :=
  let d := utf8Chunk st.u chunk
  let c := consumeSseEvents (st.buf ++ d.2)
  (⟨d.1, c.2⟩, c.1)

/-- Process a sequence of chunks, concatenating the emitted events. -/
def runChunks (st : DecState) : List (List Nat) → DecState × List (List Char)
  | [] => (st, [])
  | c :: cs =>
    let p := stepChunk st c
    let q := runChunks p.1 cs
    (q.1, p.2 ++ q.2)

/-- The complete decoder run: all chunks, then the end-of-input flush that
appends one `"\n\n"` record separator and consumes once more. -/
def decodeStream (chunks : List (List Nat)) : List (List Char) :=
  let p := runChunks decInit chunks
  p.2 ++ (consumeSseEvents (p.1.buf ++ ['\n', '\n'])).1

/-! ## JSON values and `JSON.parse`

JSON numbers are kept as their raw lexeme; the only numeric question the code
ever asks is JavaScript truthiness, decided below on the lexeme (floating
point underflow of extreme exponents is not modelled). -/

inductive Json where
  | null
  | bool (b : Bool)
  | num (raw : List Char)
  | str (s : List Char)
  | arr (xs : List Json)
  | obj (fields : List (List Char × Json))
  deriving Repr, Inhabited

mutual

def jsonDecEq : (a b : Json) → Decidable (a = b)
  | .null, .null => isTrue rfl
  | .bool x, .bool y =>
    match decEq x y with
    | isTrue h => isTrue (by rw [h])
    | isFalse h => isFalse (by intro hh; cases hh; exact h rfl)
  | .num x, .num y =>
    match decEq x y with
    | isTrue h => isTrue (by rw [h])
    | isFalse h => isFalse (by intro hh; cases hh; exact h rfl)
  | .str x, .str y =>
    match decEq x y with
    | isTrue h => isTrue (by rw [h])
    | isFalse h => isFalse (by intro hh; cases hh; exact h rfl)
  | .arr xs, .arr ys =>
    match jsonListDecEq xs ys with
    | isTrue h => isTrue (by rw [h])
    | isFalse h => isFalse (by intro hh; cases hh; exact h rfl)
  | .obj xs, .obj ys =>
    match jsonFieldsDecEq xs ys with
    | isTrue h => isTrue (by rw [h])
    | isFalse h => isFalse (by intro hh; cases hh; exact h rfl)
  | .null, .bool _ => isFalse (by intro h; cases h)
  | .null, .num _ => isFalse (by intro h; cases h)
  | .null, .str _ => isFalse (by intro h; cases h)
  | .null, .arr _ => isFalse (by intro h; cases h)
  | .null, .obj _ => isFalse (by intro h; cases h)
  | .bool _, .null => isFalse (by intro h; cases h)
  | .bool _, .num _ => isFalse (by intro h; cases h)
  | .bool _, .str _ => isFalse (by intro h; cases h)
  | .bool _, .arr _ => isFalse (by intro h; cases h)
  | .bool _, .obj _ => isFalse (by intro h; cases h)
  | .num _, .null => isFalse (by intro h; cases h)
  | .num _, .bool _ => isFalse (by intro h; cases h)
  | .num _, .str _ => isFalse (by intro h; cases h)
  | .num _, .arr _ => isFalse (by intro h; cases h)
  | .num _, .obj _ => isFalse (by intro h; cases h)
  | .str _, .null => isFalse (by intro h; cases h)
  | .str _, .bool _ => isFalse (by intro h; cases h)
  | .str _, .num _ => isFalse (by intro h; cases h)
  | .str _, .arr _ => isFalse (by intro h; cases h)
  | .str _, .obj _ => isFalse (by intro h; cases h)
  | .arr _, .null => isFalse (by intro h; cases h)
  | .arr _, .bool _ => isFalse (by intro h; cases h)
  | .arr _, .num _ => isFalse (by intro h; cases h)
  | .arr _, .str _ => isFalse (by intro h; cases h)
  | .arr _, .obj _ => isFalse (by intro h; cases h)
  | .obj _, .null => isFalse (by intro h; cases h)
  | .obj _, .bool _ => isFalse (by intro h; cases h)
  | .obj _, .num _ => isFalse (by intro h; cases h)
  | .obj _, .str _ => isFalse (by intro h; cases h)
  | .obj _, .arr _ => isFalse (by intro h; cases h)

def jsonListDecEq : (a b : List Json) → Decidable (a = b)
  | [], [] => isTrue rfl
  | [], _ :: _ => isFalse (by intro h; cases h)
  | _ :: _, [] => isFalse (by intro h; cases h)
  | x :: xs, y :: ys =>
    match jsonDecEq x y, jsonListDecEq xs ys with
    | isTrue h1, isTrue h2 => isTrue (by rw [h1, h2])
    | isFalse h1, _ => isFalse (by intro hh; cases hh; exact h1 rfl)
    | _, isFalse h2 => isFalse (by intro hh; cases hh; exact h2 rfl)

def jsonFieldsDecEq : (a b : List (List Char × Json)) → Decidable (a = b)
  | [], [] => isTrue rfl
  | [], _ :: _ => isFalse (by intro h; cases h)
  | _ :: _, [] => isFalse (by intro h; cases h)
  | (k, v) :: xs, (k2, v2) :: ys =>
    match decEq k k2, jsonDecEq v v2, jsonFieldsDecEq xs ys with
    | isTrue h0, isTrue h1, isTrue h2 => isTrue (by rw [h0, h1, h2])
    | isFalse h0, _, _ => isFalse (by intro hh; cases hh; exact h0 rfl)
    | _, isFalse h1, _ => isFalse (by intro hh; cases hh; exact h1 rfl)
    | _, _, isFalse h2 => isFalse (by intro hh; cases hh; exact h2 rfl)

end

instance : DecidableEq Json := jsonDecEq

/-- JSON insignificant whitespace. -/
def isJsonWs (c : Char) : Bool := c = ' ' ∨ c = '\t' ∨ c = '\n' ∨ c = '\r'

def skipWs (s : List Char) : List Char := s.dropWhile isJsonWs

def isDigit (c : Char) : Bool := '0' ≤ c ∧ c ≤ '9'

def hexVal (c : Char) : Option Nat :=
  if '0' ≤ c ∧ c ≤ '9' then some (c.toNat - '0'.toNat)
  else if 'a' ≤ c ∧ c ≤ 'f' then some (c.toNat - 'a'.toNat + 10)
  else if 'A' ≤ c ∧ c ≤ 'F' then some (c.toNat - 'A'.toNat + 10)
  else none

def hex4 : List Char → Option (Nat × List Char)
  | a :: b :: c :: d :: rest =>
    match hexVal a, hexVal b, hexVal c, hexVal d with
    | some x, some y, some z, some w => some (((x * 16 + y) * 16 + z) * 16 + w, rest)
    | _, _, _, _ => none
  | _ => none

/-- String body after the opening quote.  Unknown escapes and raw control
characters are rejected as `JSON.parse` does.  A `\u` high surrogate followed
by a `\u` low surrogate combines into one code point; a lone surrogate maps
through `Char.ofNat` (our chars are code points, not UTF-16 units). -/
def parseStr : Nat → List Char → Option (List Char × List Char)
  | 0, _ => none
  | _ + 1, [] => none
  | fuel + 1, c :: rest =>
    if c = '"' then some ([], rest)
    else if c = '\\' then
      match rest with
      | [] => none
      | e :: r2 =>
        if e = 'u' then
          match hex4 r2 with
          | none => none
          | some (n, r3) =>
            if 0xD800 ≤ n ∧ n ≤ 0xDBFF then
              match r3 with
              | '\\' :: 'u' :: r4 =>
                match hex4 r4 with
                | some (n2, r5) =>
                  if 0xDC00 ≤ n2 ∧ n2 ≤ 0xDFFF then
                    match parseStr fuel r5 with
                    | some p => some (Char.ofNat (0x10000 + (n - 0xD800) * 0x400 + (n2 - 0xDC00)) :: p.1, p.2)
                    | none => none
                  else
                    match parseStr fuel ('\\' :: 'u' :: r4) with
                    | some p => some (Char.ofNat n :: p.1, p.2)
                    | none => none
                | none => none
              | _ =>
                match parseStr fuel r3 with
                | some p => some (Char.ofNat n :: p.1, p.2)
                | none => none
            else
              match parseStr fuel r3 with
              | some p => some (Char.ofNat n :: p.1, p.2)
              | none => none
        else
          match
            (if e = '"' then some '"'
             else if e = '\\' then some '\\'
             else if e = '/' then some '/'
             else if e = 'b' then some '\x08'
             else if e = 'f' then some '\x0c'
             else if e = 'n' then some '\n'
             else if e = 'r' then some '\r'
             else if e = 't' then some '\t'
             else none) with
          | none => none
          | some ec =>
            match parseStr fuel r2 with
            | some p => some (ec :: p.1, p.2)
            | none => none
    else if c.toNat < 0x20 then none
    else
      match parseStr fuel rest with
      | some p => some (c :: p.1, p.2)
      | none => none

/-- Number lexeme per the JSON grammar: optional minus, integer part with no
leading zero, optional fraction, optional exponent. -/
def parseNum (s : List Char) : Option (List Char × List Char) :=
  let sign : List Char × List Char :=
    match s with
    | '-' :: r => (['-'], r)
    | r => ([], r)
  let intPart : Option (List Char × List Char) :=
    match sign.2 with
    | '0' :: r => some (['0'], r)
    | c :: r =>
      if '1' ≤ c ∧ c ≤ '9' then
        some (c :: r.takeWhile isDigit, r.dropWhile isDigit)
      else none
    | [] => none
  match intPart with
  | none => none
  | some (ip, r1) =>
    let frac : Option (List Char × List Char) :=
      match r1 with
      | '.' :: r2 =>
        if (r2.takeWhile isDigit) = [] then none
        else some ('.' :: r2.takeWhile isDigit, r2.dropWhile isDigit)
      | _ => some ([], r1)
    match frac with
    | none => none
    | some (fp, r2) =>
      match r2 with
      | e :: r3 =>
        if e = 'e' ∨ e = 'E' then
          let se : List Char × List Char :=
            match r3 with
            | '+' :: r4 => (['+'], r4)
            | '-' :: r4 => (['-'], r4)
            | r4 => ([], r4)
          if (se.2.takeWhile isDigit) = [] then none
          else some (sign.1 ++ ip ++ fp ++ e :: se.1 ++ se.2.takeWhile isDigit,
                     se.2.dropWhile isDigit)
        else some (sign.1 ++ ip ++ fp, r2)
      | [] => some (sign.1 ++ ip ++ fp, r2)

mutual

/-- One JSON value, leading whitespace allowed. -/
def parseValue : Nat → List Char → Option (Json × List Char)
  | 0, _ => none
  | fuel + 1, s =>
    match skipWs s with
    | [] => none
    | c :: rest =>
      if c = 'n' then
        if ['u', 'l', 'l'].isPrefixOf rest then some (Json.null, rest.drop 3) else none
      else if c = 't' then
        if ['r', 'u', 'e'].isPrefixOf rest then some (Json.bool true, rest.drop 3) else none
      else if c = 'f' then
        if ['a', 'l', 's', 'e'].isPrefixOf rest then some (Json.bool false, rest.drop 4) else none
      else if c = '"' then
        match parseStr (rest.length + 1) rest with
        | some p => some (Json.str p.1, p.2)
        | none => none
      else if c = '[' then
        match skipWs rest with
        | ']' :: r2 => some (Json.arr [], r2)
        | _ =>
          match parseItems fuel rest with
          | some p => some (Json.arr p.1, p.2)
          | none => none
      else if c = '{' then
        match skipWs rest with
        | '}' :: r2 => some (Json.obj [], r2)
        | _ =>
          match parseFields fuel rest with
          | some p => some (Json.obj p.1, p.2)
          | none => none
      else
        match parseNum (c :: rest) with
        | some p => some (Json.num p.1, p.2)
        | none => none

/-- Array elements after `[`, at least one element. -/
def parseItems : Nat → List Char → Option (List Json × List Char)
  | 0, _ => none
  | fuel + 1, s =>
    match parseValue fuel s with
    | none => none
    | some (v, r1) =>
      match skipWs r1 with
      | ',' :: r2 =>
        match parseItems fuel r2 with
        | some p => some (v :: p.1, p.2)
        | none => none
      | ']' :: r2 => some ([v], r2)
      | _ => none

/-- Object members after `{`, at least one member. -/
def parseFields : Nat → List Char → Option (List (List Char × Json) × List Char)
  | 0, _ => none
  | fuel + 1, s =>
    match skipWs s with
    | '"' :: r1 =>
      match parseStr (r1.length + 1) r1 with
      | none => none
      | some (key, r2) =>
        match skipWs r2 with
        | ':' :: r3 =>
          match parseValue fuel r3 with
          | none => none
          | some (v, r4) =>
            match skipWs r4 with
            | ',' :: r5 =>
              match parseFields fuel r5 with
              | some p => some ((key, v) :: p.1, p.2)
              | none => none
            | '}' :: r5 => some ([(key, v)], r5)
            | _ => none
        | _ => none
    | _ => none

end

/-- `JSON.parse`: one value, then only trailing whitespace. -/
def jsonParse (s : List Char) : Option Json :=
  match parseValue (s.length + 1) s with
  | none => none
  | some (v, rest) => if skipWs rest = [] then some v else none

/-! ## JavaScript value accessors used by the code -/

/-- Property lookup on a parsed object; with duplicate keys `JSON.parse`
keeps the last occurrence, so the rightmost binding wins. -/
def lookupField : List (List Char × Json) → List Char → Option Json
  | [], _ => none
  | (k, v) :: rest, name =>
    match lookupField rest name with
    | some r => some r
    | none => if k = name then some v else none

/-- `j.name` (or `j?.name`): `none` models `undefined`. -/
def getField (j : Json) (name : List Char) : Option Json :=
  match j with
  | .obj fs => lookupField fs name
  | _ => none

/-- `j?.[0]`: first array element, first character of a string (as a
one-character string), or the `"0"` property of an object. -/
def getIndex0 (j : Json) : Option Json :=
  match j with
  | .arr (x :: _) => some x
  | .str (c :: _) => some (Json.str [c])
  | .obj fs => lookupField fs "0".data
  | _ => none

/-- Whether a JSON number lexeme denotes zero: every mantissa digit is `0`
(the exponent is irrelevant; extreme-exponent floating underflow is not
modelled). -/
def numIsZero (raw : List Char) : Bool :=
  let noSign := match raw with
    | '-' :: r => r
    | r => r
  (noSign.takeWhile (fun c => c ≠ 'e' ∧ c ≠ 'E')).all (fun c => c = '0' ∨ c = '.')

/-- JavaScript truthiness of a parsed JSON value. -/
def jsTruthy : Json → Bool
  | .null => false
  | .bool b => b
  | .str s => s ≠ []
  | .num raw => ¬ numIsZero raw
  | .arr _ => true
  | .obj _ => true

mutual

/-- JavaScript string coercion as performed by `assistantText += content`.
Strings coerce to themselves (the only case the fidelity theorems depend
on); numbers are rendered by their lexeme and arrays element-wise with
commas, approximating `Number.prototype.toString`. -/
def jsToString : Json → List Char
  | .null => "null".data
  | .bool true => "true".data
  | .bool false => "false".data
  | .num raw => raw
  | .str s => s
  | .arr xs => jsArrToString xs
  | .obj _ => "[object Object]".data

/-- Elements joined with commas; `null` renders empty inside an array. -/
def jsArrToString : List Json → List Char
  | [] => []
  | [Json.null] => []
  | [x] => jsToString x
  | Json.null :: xs => ',' :: jsArrToString xs
  | x :: xs => jsToString x ++ ',' :: jsArrToString xs

end

/-! ## Delta extraction (flushBuffer in handleRealtime, and the identical
logic in accumulateAndPersist)

```
if (payload === "[DONE]") continue;
try {
  const json = JSON.parse(payload);
  let content = "";
  if (typeof json.response === "string" && json.response.length > 0) content = json.response;
  else if (json.choices?.[0]?.delta?.content) content = json.choices[0].delta.content;
  if (content) { ... }
} catch (e) { /- ignore parse errors -/ }
```
A property access on a non-object yields `undefined` (or throws on `null`,
which the same `catch` swallows), so both failure modes end in no
fragment. -/

def doneSentinel : List Char := "[DONE]".data

/-- The optional chain `json.choices?.[0]?.delta?.content`. -/
def chainContent (j : Json) : Option Json :=
  match getField j "choices".data with
  | none => none
  | some c =>
    match getIndex0 c with
    | none => none
    | some c0 =>
      match getField c0 "delta".data with
      | none => none
      | some d =>
        match getField d "content".data with
        | none => none
        | some v => some v

/-- The `else if` branch: the chained value must be truthy to become the
fragment (`if (content)` re-tests the same condition). -/
def altFragment (j : Json) : Option Json :=
  match chainContent j with
  | some v => if jsTruthy v then some v else none
  | none => none

/-- The fragment produced from one parsed event, `none` when the event
contributes nothing. -/
def fragmentOf (j : Json) : Option Json :=
  match getField j "response".data with
  | some (Json.str s) => if s ≠ [] then some (Json.str s) else altFragment j
  | _ => altFragment j

inductive DeltaResult where
  | terminal
  | dropped
  | noFragment
  | fragment (v : Json)
  deriving Repr, DecidableEq

/-- The Delta Extractor on one decoded event payload. -/
def extractDelta (payload : List Char) : DeltaResult :=
  if payload = doneSentinel then .terminal
  else
    match jsonParse payload with
    | none => .dropped
    | some j =>
      match fragmentOf j with
      | some v => .fragment v
      | none => .noFragment

/-! ## One streamed turn

`flushBuffer` walks the decoded events in order; each fragment is sent to the
socket as a `delta` frame and appended (string-coerced) to `assistantText`.
`accumulateAndPersist` does the same accumulation without the sends. -/

inductive Frame where
  | delta (content : Json)
  | done
  | transcript (content : List Char)
  | error (message : List Char)
  deriving Repr, DecidableEq

/-- Fold the extractor over a list of event payloads, producing the outbound
`delta` frames and the accumulated `assistantText`. -/
def runTurnEvents : List (List Char) → List Frame × List Char
  | [] => ([], [])
  | e :: es =>
    match extractDelta e with
    | .fragment v =>
      let p := runTurnEvents es
      (Frame.delta v :: p.1, jsToString v ++ p.2)
    | _ => runTurnEvents es

/-- The accumulated assistant text of one turn over a raw byte stream. -/
def turnAssistantText (chunks : List (List Nat)) : List Char :=
  (runTurnEvents (decodeStream chunks)).2

/-- The fragments a live consumer of the same byte stream extracts, in
emission order (the tee hands both consumers the identical chunks). -/
def liveFragments (chunks : List (List Nat)) : List Json :=
  (decodeStream chunks).filterMap (fun e =>
    match extractDelta e with
    | .fragment v => some v
    | _ => none)

/-- `accumulateAndPersist` in `handleChatRequest`: the pull-transport
background accumulator; it appends one assistant message exactly when the
accumulated text is non-empty. -/
def accumulateAndPersist (chunks : List (List Nat)) : List Char × Bool :=
  let t := turnAssistantText chunks
  (t, t.length > 0)

/-! ## The realtime connection (handleRealtime in index.ts) -/

def SYSTEM_PROMPT : List Char :=
  "You are a helpful, friendly assistant. Provide concise and accurate responses.".data

/-- The default system message unshifted when the fetched history has no
system-role entry. -/
def systemMessage : Json :=
  Json.obj [("role".data, Json.str "system".data), ("content".data, Json.str SYSTEM_PROMPT)]

/-- `m.role === "system"` on an arbitrary stored value. -/
def isSystem (m : Json) : Bool :=
  match getField m "role".data with
  | some (Json.str s) => s = "system".data
  | _ => false

/-- `if (!messages.some((m) => m.role === "system"))
messages.unshift({ role: "system", content: SYSTEM_PROMPT })` — the
canonical history handed to `env.AI.run`. -/
def canonicalize (msgs : List Json) : List Json :=
  if msgs.any isSystem then msgs else systemMessage :: msgs

/-- `JSON.stringify({ role: "user", content: data.content })` as re-parsed by
the Durable Object: the `content` key is omitted when `data.content` is
`undefined`. -/
def userMsgOf (j : Json) : Json :=
  Json.obj (("role".data, Json.str "user".data) ::
    (match getField j "content".data with
     | some v => [("content".data, v)]
     | none => []))

/-- The assistant message persisted after a turn. -/
def assistantMsgOf (t : List Char) : Json :=
  Json.obj [("role".data, Json.str "assistant".data), ("content".data, Json.str t)]

/-- User message persisted for an audio utterance. -/
def userTextMsg (t : List Char) : Json :=
  Json.obj [("role".data, Json.str "user".data), ("content".data, Json.str t)]

/-- `data.type === name`. -/
def typeIs (j : Json) (name : List Char) : Bool :=
  match getField j "type".data with
  | some (Json.str s) => s = name
  | _ => false

/-- The transcript placeholder
`[Audio received N bytes] (transcription not configured)`. -/
def audioPlaceholder (totalLen : Nat) : List Char :=
  "[Audio received ".data ++ Nat.toDigits 10 totalLen ++
    " bytes] (transcription not configured)".data

/-- Stand-in for the environment-specific `String(e)` text the catch handler
sends; its contents are never relied upon. -/
def realtimeErrorText : List Char := "SyntaxError: Unexpected token".data

/-- One inbound WebSocket frame. -/
inductive InFrame where
  | bin (b : List Nat)
  | text (s : List Char)
  deriving Repr, DecidableEq

/-- State of one realtime connection together with its observable
environment: the audio chunk buffer of the connection, the Durable Object
message log, the outbound frames sent so far, the pending inference byte
streams (consumed one per `env.AI.run`), and two observation-only fields
recording the canonical history passed to each inference call and each merged
audio blob. -/
structure RealtimeState where
  audioBuffers : List (List Nat)
  log : List Json
  outbound : List Frame
  streams : List (List (List Nat))
  calls : List (List Json)
  merged : List (List Nat)
  deriving Repr, DecidableEq

def initRealtime (log : List Json) (streams : List (List (List Nat))) : RealtimeState :=
  { audioBuffers := [], log := log, outbound := [], streams := streams,
    calls := [], merged := [] }

/-- Servicing of one inbound frame by the `handleRealtime` message listener,
run to completion.  A binary frame is pushed onto `audioBuffers`.  A text
frame is parsed; parse failure reaches the top-level catch, which sends an
`error` frame; a falsy parse result returns silently.  A `user_message`
frame appends the user message, fetches the canonical history, runs one
inference stream, sends a `delta` frame per fragment, persists the
accumulated reply when non-empty, and always sends `done`.  An `audio_end`
frame merges and clears the audio buffer, persists and announces the
placeholder transcript, then runs the same turn pipeline. -/
def handleRealtimeFrame (st : RealtimeState) (f : InFrame) : RealtimeState :=
  match f with
  | .bin b => { st with audioBuffers := st.audioBuffers ++ [b] }
  | .text s =>
    match jsonParse s with
    | none => { st with outbound := st.outbound ++ [Frame.error realtimeErrorText] }
    | some j =>
      if jsTruthy j = false then st
      else if typeIs j "user_message".data then
        let log1 := st.log ++ [userMsgOf j]
        let canonical := canonicalize log1
        let turn := runTurnEvents (decodeStream (st.streams.headD []))
        { st with
          log := log1 ++ (if turn.2.length > 0 then [assistantMsgOf turn.2] else []),
          outbound := st.outbound ++ turn.1 ++ [Frame.done],
          streams := st.streams.tail,
          calls := st.calls ++ [canonical] }
      else if typeIs j "audio_end".data then
        let combined := st.audioBuffers.flatten
        let placeholder := audioPlaceholder combined.length
        let log1 := st.log ++ [userTextMsg placeholder]
        let canonical := canonicalize log1
        let turn := runTurnEvents (decodeStream (st.streams.headD []))
        { st with
          audioBuffers := [],
          merged := st.merged ++ [combined],
          log := log1 ++ (if turn.2.length > 0 then [assistantMsgOf turn.2] else []),
          outbound := st.outbound ++ [Frame.transcript placeholder] ++ turn.1 ++ [Frame.done],
          streams := st.streams.tail,
          calls := st.calls ++ [canonical] }
      else st

/-- A whole inbound frame sequence, serviced in order. -/
def processFrames (st : RealtimeState) (fs : List InFrame) : RealtimeState :=
  fs.foldl handleRealtimeFrame st

/-! ## The Durable Object (ConversationDO.fetch in conversation_do.ts)

Storage is `Option (List Json)` (`get` of a missing key yields the `|| []`
default).  Responses carry their status and, for GET, the stored array as a
JSON value (serialization at the HTTP boundary is not re-modelled). -/

structure DoResult where
  status : Nat
  body : Option Json
  stored : Option (List Json)
  deriving Repr, DecidableEq

def conversationDoFetch (stored : Option (List Json)) (method : List Char)
    (path : List Char) (body : List Char) : DoResult :=
  if method = "GET".data ∧ path = "/messages".data then
    ⟨200, some (Json.arr (stored.getD [])), stored⟩
  else if method = "POST".data ∧ path = "/append".data then
    if body = [] then ⟨400, none, stored⟩
    else
      match jsonParse body with
      | none => ⟨400, none, stored⟩
      | some msg => ⟨204, none, some (stored.getD [] ++ [msg])⟩
  else if method = "DELETE".data ∧ path = "/clear".data then ⟨204, none, none⟩
  else ⟨404, none, stored⟩

/-! ## Await-interleaving skeleton of the user_message handler

The `message` listener is an async callback: each `await` is a suspension
point at which the servicing of a later frame can run.  For the at-most-one-
in-flight-turn question only the order of collaborator operations matters, so
one activation of the `user_message` branch is abstracted to its operation
sequence, and an execution of the connection is any order-preserving
interleaving of the activations. -/

inductive ROp where
  | appendUser
  | fetchHistory
  | startInference
  | readChunk
  | appendAssistant
  | sendDone
  deriving Repr, DecidableEq

/-- Operation sequence of one `user_message` activation: append the user
message, fetch the canonical history, call `env.AI.run`, read the stream
chunk by chunk, persist the reply when non-empty, send `done`.  The branch
consults no connection state before any of these steps. -/
def opsUserMessage (chunkReads : Nat) (persists : Bool) : List ROp :=
  [ROp.appendUser, ROp.fetchHistory, ROp.startInference] ++
    List.replicate chunkReads ROp.readChunk ++
    (if persists then [ROp.appendAssistant] else []) ++ [ROp.sendDone]

/-- `isInterleaving xs ys zs`: `zs` is an order-preserving merge of `xs` and
`ys`. -/
def isInterleaving : List ROp → List ROp → List ROp → Bool
  | [], [], [] => true
  | xs, ys, z :: zs =>
    (match xs with
     | x :: xs2 => if x = z then isInterleaving xs2 ys zs else false
     | [] => false) ||
    (match ys with
     | y :: ys2 => if y = z then isInterleaving xs ys2 zs else false
     | [] => false)
  | _, _, [] => false

/-- How many inference calls start before the first turn completes. -/
def startsBeforeFirstDone (t : List ROp) : Nat :=
  (t.takeWhile (fun o => o ≠ ROp.sendDone)).count ROp.startInference

/-! ## Decoder lemmas: the record loop composes across buffer boundaries -/

theorem splitFirstSep_eq : ∀ (s pre post : List Char),
    splitFirstSep s = some (pre, post) → s = pre ++ '\n' :: '\n' :: post := by
  intro s
  induction s with
  | nil => intro pre post h; simp [splitFirstSep] at h
  | cons c1 tl ih =>
    intro pre post h
    cases tl with
    | nil => simp [splitFirstSep] at h
    | cons c2 rest =>
      simp only [splitFirstSep] at h
      split at h
      · rename_i hnn
        simp only [Option.some.injEq, Prod.mk.injEq] at h
        obtain ⟨h1, h2⟩ := h
        subst h1; subst h2
        simp [hnn.1, hnn.2]
      · rename_i hnn
        cases hsp : splitFirstSep (c2 :: rest) with
        | none => rw [hsp] at h; cases h
        | some pr =>
          obtain ⟨a, b⟩ := pr
          rw [hsp] at h
          simp only [Option.some.injEq, Prod.mk.injEq] at h
          obtain ⟨h1, h2⟩ := h
          subst h1; subst h2
          have := ih a b hsp
          rw [this]
          simp

theorem splitFirstSep_append : ∀ (s t pre post : List Char),
    splitFirstSep s = some (pre, post) →
    splitFirstSep (s ++ t) = some (pre, post ++ t) := by
  intro s
  induction s with
  | nil => intro t pre post h; simp [splitFirstSep] at h
  | cons c1 tl ih =>
    intro t pre post h
    cases tl with
    | nil => simp [splitFirstSep] at h
    | cons c2 rest =>
      simp only [splitFirstSep] at h
      split at h
      · rename_i hnn
        simp only [Option.some.injEq, Prod.mk.injEq] at h
        obtain ⟨h1, h2⟩ := h
        subst h1; subst h2
        simp only [List.cons_append, splitFirstSep, if_pos hnn]
        rfl
      · rename_i hnn
        cases hsp : splitFirstSep (c2 :: rest) with
        | none => rw [hsp] at h; cases h
        | some pr =>
          obtain ⟨a, b⟩ := pr
          rw [hsp] at h
          simp only [Option.some.injEq, Prod.mk.injEq] at h
          obtain ⟨h1, h2⟩ := h
          subst h1; subst h2
          have := ih t a b hsp
          simp only [List.cons_append] at this ⊢
          simp only [splitFirstSep, if_neg hnn, this]

theorem splitFirstSep_post_lt {s pre post : List Char}
    (h : splitFirstSep s = some (pre, post)) : post.length < s.length := by
  have hd := splitFirstSep_eq s pre post h
  subst hd
  simp only [List.length_append, List.length_cons]
  omega

theorem goF_congr : ∀ (f g : Nat) (s : List Char),
    s.length ≤ f → s.length ≤ g → goF f s = goF g s := by
  intro f
  induction f with
  | zero =>
    intro g s hf _
    have hz : s = [] := List.length_eq_zero.mp (Nat.le_zero.mp hf)
    subst hz
    cases g <;> simp [goF, splitFirstSep]
  | succ f ih =>
    intro g s hf hg
    cases g with
    | zero =>
      have hz : s = [] := List.length_eq_zero.mp (Nat.le_zero.mp hg)
      subst hz
      simp [goF, splitFirstSep]
    | succ g =>
      cases hsp : splitFirstSep s with
      | none => simp only [goF, hsp]
      | some pr =>
        obtain ⟨pre, post⟩ := pr
        have hlt := splitFirstSep_post_lt hsp
        simp only [goF, hsp]
        rw [ih g post (by omega) (by omega)]

theorem goRecords_eq_none {s : List Char} (h : splitFirstSep s = none) :
    goRecords s = ([], s) := by
  unfold goRecords
  cases hl : s.length with
  | zero => simp [goF]
  | succ n => simp [goF, h]

theorem goRecords_eq_some {s pre post : List Char}
    (h : splitFirstSep s = some (pre, post)) :
    goRecords s = (recordEvents pre ++ (goRecords post).1, (goRecords post).2) := by
  have hlt := splitFirstSep_post_lt h
  unfold goRecords
  have hs : s.length = (s.length - 1) + 1 := by omega
  rw [hs]
  simp only [goF, h]
  rw [goF_congr (s.length - 1) post.length post (by omega) le_rfl]

theorem goRecords_append : ∀ (n : Nat) (s t : List Char), s.length ≤ n →
    goRecords (s ++ t) =
      ((goRecords s).1 ++ (goRecords ((goRecords s).2 ++ t)).1,
       (goRecords ((goRecords s).2 ++ t)).2) := by
  intro n
  induction n using Nat.strong_induction_on with
  | _ n ih =>
    intro s t hs
    cases hsp : splitFirstSep s with
    | none =>
      rw [goRecords_eq_none hsp]
      simp
    | some pr =>
      obtain ⟨pre, post⟩ := pr
      have hlt := splitFirstSep_post_lt hsp
      rw [goRecords_eq_some (splitFirstSep_append s t pre post hsp),
          goRecords_eq_some hsp]
      have hrec := ih post.length (by omega) post t le_rfl
      rw [hrec]
      simp [List.append_assoc]

theorem goRecords_residual_mem : ∀ (n : Nat) (s : List Char), s.length ≤ n →
    ∀ c ∈ (goRecords s).2, c ∈ s := by
  intro n
  induction n using Nat.strong_induction_on with
  | _ n ih =>
    intro s hs c hc
    cases hsp : splitFirstSep s with
    | none =>
      rw [goRecords_eq_none hsp] at hc
      exact hc
    | some pr =>
      obtain ⟨pre, post⟩ := pr
      have hlt := splitFirstSep_post_lt hsp
      rw [goRecords_eq_some hsp] at hc
      have hmem := ih post.length (by omega) post le_rfl c hc
      rw [splitFirstSep_eq s pre post hsp]
      simp [hmem]

theorem removeCR_append (a b : List Char) :
    removeCR (a ++ b) = removeCR a ++ removeCR b := by
  simp [removeCR]

theorem ne_cr_of_mem_removeCR {c : Char} {s : List Char}
    (h : c ∈ removeCR s) : c ≠ '\r' := by
  have := List.of_mem_filter h
  simpa using this

theorem removeCR_of_crfree {s : List Char} (h : ∀ c ∈ s, c ≠ '\r') :
    removeCR s = s := by
  apply List.filter_eq_self.mpr
  intro a ha
  simpa using h a ha

theorem consumeSseEvents_residual_crfree (buffer : List Char) :
    ∀ c ∈ (consumeSseEvents buffer).2, c ≠ '\r' := by
  intro c hc
  exact ne_cr_of_mem_removeCR
    (goRecords_residual_mem (removeCR buffer).length (removeCR buffer) le_rfl c hc)

theorem consumeSseEvents_append (a b : List Char) :
    consumeSseEvents (a ++ b) =
      ((consumeSseEvents a).1 ++ (consumeSseEvents ((consumeSseEvents a).2 ++ b)).1,
       (consumeSseEvents ((consumeSseEvents a).2 ++ b)).2) := by
  have hcr : ∀ c ∈ (goRecords (removeCR a)).2, c ≠ '\r' :=
    consumeSseEvents_residual_crfree a
  have hres : removeCR ((goRecords (removeCR a)).2 ++ b) =
      (goRecords (removeCR a)).2 ++ removeCR b := by
    rw [removeCR_append, removeCR_of_crfree hcr]
  show goRecords (removeCR (a ++ b)) =
    ((goRecords (removeCR a)).1 ++
      (goRecords (removeCR ((goRecords (removeCR a)).2 ++ b))).1,
     (goRecords (removeCR ((goRecords (removeCR a)).2 ++ b))).2)
  rw [hres, removeCR_append,
      goRecords_append (removeCR a).length (removeCR a) (removeCR b) le_rfl]

theorem utf8Chunk_append (st : Utf8State) (a b : List Nat) :
    utf8Chunk st (a ++ b) =
      ((utf8Chunk (utf8Chunk st a).1 b).1,
       (utf8Chunk st a).2 ++ (utf8Chunk (utf8Chunk st a).1 b).2) := by
  induction a generalizing st with
  | nil => simp [utf8Chunk]
  | cons x xs ih => simp [utf8Chunk, ih, List.append_assoc]

theorem stepChunk_append (st : DecState) (a b : List Nat) :
    stepChunk st (a ++ b) =
      ((stepChunk (stepChunk st a).1 b).1,
       (stepChunk st a).2 ++ (stepChunk (stepChunk st a).1 b).2) := by
  unfold stepChunk
  rw [utf8Chunk_append]
  simp only
  rw [← List.append_assoc, consumeSseEvents_append]

theorem runChunks_nil (st : DecState) : runChunks st [] = (st, []) := rfl

theorem runChunks_cons (st : DecState) (c : List Nat) (cs : List (List Nat)) :
    runChunks st (c :: cs) =
      ((runChunks (stepChunk st c).1 cs).1,
       (stepChunk st c).2 ++ (runChunks (stepChunk st c).1 cs).2) := rfl

theorem runChunks_cons_flatten : ∀ (cs : List (List Nat)) (st : DecState) (c : List Nat),
    runChunks st [c ++ cs.flatten] = runChunks st (c :: cs) := by
  intro cs
  induction cs with
  | nil => intro st c; simp [runChunks]
  | cons c2 cs2 ih =>
    intro st c
    rw [runChunks_cons st c (c2 :: cs2), ← ih (stepChunk st c).1 c2]
    rw [List.flatten_cons]
    rw [runChunks_cons st (c ++ (c2 ++ cs2.flatten)) [], runChunks_nil,
        runChunks_cons (stepChunk st c).1 (c2 ++ cs2.flatten) [], runChunks_nil]
    rw [stepChunk_append st c (c2 ++ cs2.flatten)]
    simp [List.append_assoc]

/-- Claim C2 helper: processing chunk by chunk equals processing the
concatenation as one chunk. -/
theorem runChunks_flatten (cs : List (List Nat)) (c : List Nat) (st : DecState) :
    runChunks st (c :: cs) = runChunks st [c ++ cs.flatten] :=
  (runChunks_cons_flatten cs st c).symm

/-! ## Carriage returns never reach an event payload -/

theorem splitOnNl_ne_nil (s : List Char) : splitOnNl s ≠ [] := by
  cases s with
  | nil => simp [splitOnNl]
  | cons x xs =>
    simp only [splitOnNl]
    split
    · simp
    · cases h : splitOnNl xs <;> simp

theorem mem_of_mem_splitOnNl : ∀ (s l : List Char), l ∈ splitOnNl s →
    ∀ c ∈ l, c ∈ s := by
  intro s
  induction s with
  | nil =>
    intro l hl c hc
    simp [splitOnNl] at hl
    subst hl
    cases hc
  | cons x xs ih =>
    intro l hl c hc
    simp only [splitOnNl] at hl
    by_cases hx : x = '\n'
    · rw [if_pos hx] at hl
      rcases List.mem_cons.mp hl with h | h
      · subst h; cases hc
      · exact List.mem_cons_of_mem x (ih l h c hc)
    · rw [if_neg hx] at hl
      cases hsp : splitOnNl xs with
      | nil => exact absurd hsp (splitOnNl_ne_nil xs)
      | cons l2 ls =>
        rw [hsp] at hl
        rcases List.mem_cons.mp hl with h | h
        · subst h
          rcases List.mem_cons.mp hc with h2 | h2
          · subst h2; exact List.mem_cons_self c xs
          · exact List.mem_cons_of_mem x
              (ih l2 (hsp ▸ List.mem_cons_self l2 ls) c h2)
        · exact List.mem_cons_of_mem x
            (ih l (hsp ▸ List.mem_cons_of_mem l2 h) c hc)

theorem mem_joinNl : ∀ (ls : List (List Char)) (c : Char), c ∈ joinNl ls →
    c = '\n' ∨ ∃ l ∈ ls, c ∈ l := by
  intro ls
  induction ls with
  | nil => intro c hc; cases hc
  | cons l ls2 ih =>
    intro c hc
    cases ls2 with
    | nil =>
      right
      exact ⟨l, List.mem_cons_self l [], hc⟩
    | cons m ms =>
      simp only [joinNl] at hc
      rcases List.mem_append.mp hc with h | h
      · right; exact ⟨l, List.mem_cons_self l _, h⟩
      · rcases List.mem_cons.mp h with h2 | h2
        · left; exact h2
        · rcases ih c h2 with h3 | ⟨l2, hl2, hc2⟩
          · left; exact h3
          · right; exact ⟨l2, List.mem_cons_of_mem l hl2, hc2⟩

theorem mem_of_dataLineValue {line v : List Char}
    (h : dataLineValue line = some v) : ∀ c ∈ v, c ∈ line := by
  intro c hc
  unfold dataLineValue at h
  split at h
  · have hv : v = jsTrimStart (line.drop 5) := by
      simpa using h.symm
    subst hv
    have h1 : c ∈ line.drop 5 := (List.dropWhile_sublist _).subset hc
    exact (List.drop_sublist 5 line).subset h1
  · cases h

theorem mem_of_recordPayload {r p : List Char}
    (h : recordPayload r = some p) : ∀ c ∈ p, c ∈ r ∨ c = '\n' := by
  intro c hc
  simp only [recordPayload] at h
  split at h
  · cases h
  · have hp : p = joinNl ((splitOnNl r).filterMap dataLineValue) := by
      simpa using h.symm
    subst hp
    rcases mem_joinNl _ c hc with h1 | ⟨l, hl, hcl⟩
    · right; exact h1
    · left
      rcases List.mem_filterMap.mp hl with ⟨line, hline, hdv⟩
      exact mem_of_mem_splitOnNl r line hline c (mem_of_dataLineValue hdv c hcl)

theorem goRecords_event_mem : ∀ (n : Nat) (s : List Char), s.length ≤ n →
    ∀ e ∈ (goRecords s).1, ∀ c ∈ e, c ∈ s ∨ c = '\n' := by
  intro n
  induction n using Nat.strong_induction_on with
  | _ n ih =>
    intro s hs e he c hc
    cases hsp : splitFirstSep s with
    | none =>
      rw [goRecords_eq_none hsp] at he
      cases he
    | some pr =>
      obtain ⟨pre, post⟩ := pr
      have hlt := splitFirstSep_post_lt hsp
      have hdec := splitFirstSep_eq s pre post hsp
      rw [goRecords_eq_some hsp] at he
      rcases List.mem_append.mp he with h | h
      · unfold recordEvents at h
        cases hrp : recordPayload pre with
        | none => rw [hrp] at h; cases h
        | some p =>
          rw [hrp] at h
          rcases List.mem_cons.mp h with h2 | h2
          · subst h2
            rcases mem_of_recordPayload hrp c hc with h3 | h3
            · left; rw [hdec]; exact List.mem_append.mpr (Or.inl h3)
            · right; exact h3
          · cases h2
      · rcases ih post.length (by omega) post le_rfl e h c hc with h3 | h3
        · left
          rw [hdec]
          exact List.mem_append.mpr (Or.inr (by simp [h3]))
        · right; exact h3

theorem consumeSseEvents_events_crfree (buffer : List Char) :
    ∀ e ∈ (consumeSseEvents buffer).1, ∀ c ∈ e, c ≠ '\r' := by
  intro e he c hc
  rcases goRecords_event_mem (removeCR buffer).length (removeCR buffer) le_rfl
      e he c hc with h | h
  · exact ne_cr_of_mem_removeCR h
  · subst h; decide

theorem runChunks_events_crfree : ∀ (chunks : List (List Nat)) (st : DecState),
    ∀ e ∈ (runChunks st chunks).2, ∀ c ∈ e, c ≠ '\r' := by
  intro chunks
  induction chunks with
  | nil => intro st e he; cases he
  | cons ch cs ih =>
    intro st e he c hc
    rw [runChunks_cons] at he
    rcases List.mem_append.mp he with h | h
    · exact consumeSseEvents_events_crfree _ e h c hc
    · exact ih _ e h c hc

theorem decodeStream_events_crfree (chunks : List (List Nat)) :
    ∀ e ∈ decodeStream chunks, ∀ c ∈ e, c ≠ '\r' := by
  intro e he c hc
  unfold decodeStream at he
  rcases List.mem_append.mp he with h | h
  · exact runChunks_events_crfree chunks decInit e h c hc
  · exact consumeSseEvents_events_crfree _ e h c hc

/-! ## The accumulated reply is the concatenation of the emitted fragments -/

/-- The extractor decision on one event, as an optional fragment. -/
def eventFragment (e : List Char) : Option Json :=
  match extractDelta e with
  | .fragment v => some v
  | _ => none

theorem liveFragments_eq (chunks : List (List Nat)) :
    liveFragments chunks = (decodeStream chunks).filterMap eventFragment := rfl

theorem runTurnEvents_frames (es : List (List Char)) :
    (runTurnEvents es).1 = (es.filterMap eventFragment).map Frame.delta := by
  induction es with
  | nil => rfl
  | cons e es2 ih =>
    cases hd : extractDelta e <;>
      simp [runTurnEvents, eventFragment, List.filterMap_cons, hd, ih]

theorem runTurnEvents_text (es : List (List Char)) :
    (runTurnEvents es).2 = ((es.filterMap eventFragment).map jsToString).flatten := by
  induction es with
  | nil => rfl
  | cons e es2 ih =>
    cases hd : extractDelta e <;>
      simp [runTurnEvents, eventFragment, List.filterMap_cons, hd, ih]

/-! ## Interleavings of two handler activations -/

theorem isInterleaving_count : ∀ (zs xs ys : List ROp),
    isInterleaving xs ys zs = true → ∀ o : ROp,
    zs.count o = xs.count o + ys.count o := by
  intro zs
  induction zs with
  | nil =>
    intro xs ys h o
    cases xs with
    | nil =>
      cases ys with
      | nil => simp
      | cons y ys2 => simp [isInterleaving] at h
    | cons x xs2 => cases ys <;> simp [isInterleaving] at h
  | cons z zs2 ih =>
    intro xs ys h o
    cases xs with
    | nil =>
      cases ys with
      | nil => simp [isInterleaving] at h
      | cons y ys2 =>
        simp only [isInterleaving, Bool.false_or] at h
        split at h
        · rename_i hyz
          have := ih [] ys2 h o
          rw [hyz]
          by_cases hoz : o = z <;> simp [List.count_cons, hoz] at this ⊢ <;> try omega
        · cases h
    | cons x xs2 =>
      cases ys with
      | nil =>
        simp only [isInterleaving, Bool.or_false] at h
        split at h
        · rename_i hxz
          have := ih xs2 [] h o
          rw [hxz]
          by_cases hoz : o = z <;> simp [List.count_cons, hoz] at this ⊢ <;> try omega
        · cases h
      | cons y ys2 =>
        simp only [isInterleaving, Bool.or_eq_true] at h
        rcases h with h1 | h1
        · split at h1
          · rename_i hxz
            have := ih xs2 (y :: ys2) h1 o
            rw [hxz]
            generalize List.count o (y :: ys2) = k at this ⊢
            by_cases hoz : o = z <;> simp [List.count_cons, hoz] at this ⊢ <;> try omega
          · cases h1
        · split at h1
          · rename_i hyz
            have := ih (x :: xs2) ys2 h1 o
            rw [hyz]
            generalize List.count o (x :: xs2) = k at this ⊢
            by_cases hoz : o = z <;> simp [List.count_cons, hoz] at this ⊢ <;> try omega
          · cases h1

theorem count_startInference_opsUserMessage (k : Nat) (p : Bool) :
    (opsUserMessage k p).count ROp.startInference = 1 := by
  cases p <;>
    simp [opsUserMessage, List.count_append, List.count_replicate, List.count_cons,
      List.count_nil]

/-! ## Roles of the messages the pipeline persists -/

theorem isSystem_userMsgOf (j : Json) : isSystem (userMsgOf j) = false := by
  have hne : ("content".data : List Char) = "role".data ↔ False := by decide
  unfold userMsgOf
  cases hgf : getField j "content".data with
  | none => decide
  | some v => simp [isSystem, getField, lookupField, hne]

theorem isSystem_assistantMsgOf (t : List Char) :
    isSystem (assistantMsgOf t) = false := by
  have hne : ("content".data : List Char) = "role".data ↔ False := by decide
  simp [assistantMsgOf, isSystem, getField, lookupField, hne]

theorem isSystem_userTextMsg (t : List Char) :
    isSystem (userTextMsg t) = false := by
  have hne : ("content".data : List Char) = "role".data ↔ False := by decide
  simp [userTextMsg, isSystem, getField, lookupField, hne]

/-! ## Concrete demonstration data shared by witnesses -/

/-- The happy-path inference stream of the spec scenario, split mid-event. -/
def demoStream : List (List Nat) :=
  ["data: \x7b\"response\":\"Hel\"\x7d\n\n".data.map Char.toNat,
   "data: \x7b\"response\":\"lo\"\x7d\n\ndata: [DONE]\n\n".data.map Char.toNat]

/-- A stream whose events carry no parsable content. -/
def demoEmptyStream : List (List Nat) :=
  ["data: [DONE]\n\n".data.map Char.toNat]

def demoUserFrameText : List Char :=
  "\x7b\"type\":\"user_message\",\"content\":\"Hi\"\x7d".data

def demoUserJson : Json :=
  Json.obj [("type".data, Json.str "user_message".data),
            ("content".data, Json.str "Hi".data)]

def audioEndFrameText : List Char := "\x7b\"type\":\"audio_end\"\x7d".data

/-! ## Claim theorems -/

/-- C2: for every input byte sequence and every way of splitting it into
chunks (including splits inside a multi-byte UTF-8 character, inside the
`data:` marker, or inside the `"\n\n"` record separator), the frame decoder —
the residual-buffer parse loop plus the final flush that appends one record
separator at end of input — produces exactly the same ordered sequence of
event payloads as feeding the whole input as a single chunk. -/
theorem frame_decoder_chunk_invariance (chunks : List (List Nat)) :
    decodeStream chunks = decodeStream [chunks.flatten] := by
  cases chunks with
  | nil => rfl
  | cons c cs =>
    unfold decodeStream
    rw [List.flatten_cons, runChunks_cons_flatten]

/-- C10: no event payload produced by the frame decoder contains a carriage
return — every `\r` is deleted globally before record separators are sought —
and payload content containing a literal `\r` is altered rather than passed
through, as the concrete run shows. -/
theorem decoder_strips_carriage_returns :
    (∀ (chunks : List (List Nat)) (e : List Char), e ∈ decodeStream chunks → '\r' ∉ e) ∧
    decodeStream ["data: a\rb\n\n".data.map Char.toNat] = ["ab".data] := by
  constructor
  · intro chunks e he hr
    exact decodeStream_events_crfree chunks e he '\r' hr rfl
  · decide

/-- Witness for C10 at a concrete input. -/
theorem decoder_strips_carriage_returns_witness : '\r' ∉ "ab".data :=
  decoder_strips_carriage_returns.1 ["data: a\rb\n\n".data.map Char.toNat]
    "ab".data (by decide)

/-- C1: for every turn, the assistant content persisted to the session log is
the concatenation, in emission order, of the content fragments delivered on
the live path; an assistant message is appended iff the accumulated reply is
non-empty; and on the duplex transport `done` is sent even when the reply is
empty (the outbound sequence always ends with `done`). -/
theorem tee_fidelity :
    ∀ (stream : List (List Nat)) (st : RealtimeState) (s : List Char) (j : Json),
      jsonParse s = some j → jsTruthy j = true →
      typeIs j "user_message".data = true → st.streams.headD [] = stream →
      (handleRealtimeFrame st (.text s)).outbound =
        st.outbound ++ (liveFragments stream).map Frame.delta ++ [Frame.done] ∧
      (handleRealtimeFrame st (.text s)).log =
        st.log ++ [userMsgOf j] ++
          (if (turnAssistantText stream).length > 0
           then [assistantMsgOf (turnAssistantText stream)] else []) ∧
      turnAssistantText stream = ((liveFragments stream).map jsToString).flatten ∧
      (accumulateAndPersist stream).1 = ((liveFragments stream).map jsToString).flatten ∧
      ((accumulateAndPersist stream).2 = true ↔ (accumulateAndPersist stream).1 ≠ []) := by
  intro stream st s j hp ht hum hs
  have hframes := runTurnEvents_frames (decodeStream stream)
  have htext := runTurnEvents_text (decodeStream stream)
  have hmain : turnAssistantText stream = ((liveFragments stream).map jsToString).flatten := by
    rw [turnAssistantText, htext, liveFragments_eq]
  refine ⟨?_, ?_, hmain, hmain, ?_⟩
  · simp only [handleRealtimeFrame, hp, ht, hum, hs]
    simp [hframes, liveFragments_eq, List.append_assoc]
  · simp only [handleRealtimeFrame, hp, ht, hum, hs]
    simp [turnAssistantText, List.append_assoc]
  · simp only [accumulateAndPersist, decide_eq_true_eq]
    constructor
    · intro h
      exact List.ne_nil_of_length_pos h
    · intro h
      exact List.length_pos.mpr h

/-- Witness for C1: the spec scenario stream `Hel`, `lo`, `[DONE]`. -/
theorem tee_fidelity_witness :
    (handleRealtimeFrame (initRealtime [] [demoStream]) (.text demoUserFrameText)).outbound =
      (initRealtime [] [demoStream]).outbound ++
        (liveFragments demoStream).map Frame.delta ++ [Frame.done] ∧
    (handleRealtimeFrame (initRealtime [] [demoStream]) (.text demoUserFrameText)).log =
      (initRealtime [] [demoStream]).log ++ [userMsgOf demoUserJson] ++
        (if (turnAssistantText demoStream).length > 0
         then [assistantMsgOf (turnAssistantText demoStream)] else []) ∧
    turnAssistantText demoStream = ((liveFragments demoStream).map jsToString).flatten ∧
    (accumulateAndPersist demoStream).1 = ((liveFragments demoStream).map jsToString).flatten ∧
    ((accumulateAndPersist demoStream).2 = true ↔ (accumulateAndPersist demoStream).1 ≠ []) :=
  tee_fidelity demoStream (initRealtime [] [demoStream]) demoUserFrameText demoUserJson
    (by decide) (by decide) (by decide) (by decide)

/-- C9: an append request with an empty or non-JSON body yields status 400
and leaves the stored sequence unchanged; a successful append of any parsed
value `j` (no validation of role or content) yields 204, and a subsequent
get-all returns exactly the old contents with `j` at the end. -/
theorem conversation_do_append (stored : Option (List Json)) (body : List Char) :
    (body = [] →
      conversationDoFetch stored "POST".data "/append".data body = ⟨400, none, stored⟩) ∧
    (jsonParse body = none →
      conversationDoFetch stored "POST".data "/append".data body = ⟨400, none, stored⟩) ∧
    (∀ j, jsonParse body = some j →
      conversationDoFetch stored "POST".data "/append".data body =
        ⟨204, none, some (stored.getD [] ++ [j])⟩ ∧
      conversationDoFetch (some (stored.getD [] ++ [j])) "GET".data "/messages".data [] =
        ⟨200, some (Json.arr (stored.getD [] ++ [j])), some (stored.getD [] ++ [j])⟩) := by
  have hno : (("POST".data : List Char) = "GET".data ∧
      ("/append".data : List Char) = "/messages".data) ↔ False := by decide
  have hyes : (("POST".data : List Char) = "POST".data ∧
      ("/append".data : List Char) = "/append".data) ↔ True := by decide
  have hget : (("GET".data : List Char) = "GET".data ∧
      ("/messages".data : List Char) = "/messages".data) ↔ True := by decide
  refine ⟨?_, ?_, ?_⟩
  · intro hb
    subst hb
    simp [conversationDoFetch, hno, hyes]
  · intro hp
    by_cases hb : body = []
    · subst hb
      simp [conversationDoFetch, hno, hyes]
    · simp [conversationDoFetch, hno, hyes, hb, hp]
  · intro j hj
    have hb : body ≠ [] := by
      intro hb
      have hnone : jsonParse ([] : List Char) = none := by decide
      rw [hb, hnone] at hj
      cases hj
    refine ⟨?_, ?_⟩
    · simp [conversationDoFetch, hno, hyes, hb, hj]
    · simp [conversationDoFetch, hget]

/-- Witness for C9: a rejected body and an accepted one (a bare number as
`role`, showing the absence of validation). -/
theorem conversation_do_append_witness :
    conversationDoFetch none "POST".data "/append".data "nope".data =
      ⟨400, none, none⟩ ∧
    conversationDoFetch none "POST".data "/append".data "\x7b\"role\":5\x7d".data =
      ⟨204, none, some [Json.obj [("role".data, Json.num "5".data)]]⟩ ∧
    conversationDoFetch (some [Json.obj [("role".data, Json.num "5".data)]])
        "GET".data "/messages".data [] =
      ⟨200, some (Json.arr [Json.obj [("role".data, Json.num "5".data)]]),
       some [Json.obj [("role".data, Json.num "5".data)]]⟩ :=
  ⟨(conversation_do_append none "nope".data).2.1 (by decide),
   ((conversation_do_append none "\x7b\"role\":5\x7d".data).2.2
      (Json.obj [("role".data, Json.num "5".data)]) (by decide)).1,
   ((conversation_do_append none "\x7b\"role\":5\x7d".data).2.2
      (Json.obj [("role".data, Json.num "5".data)]) (by decide)).2⟩

/-- C3 counterexample: the handler keeps no in-flight-turn state, so there is
an await-interleaving of two `user_message` activations in which a second
inference call starts before the first turn completes — the claimed
at-most-one-in-flight property fails on the code. -/
theorem second_turn_not_serialized_counterexample :
    ¬ (∀ t : List ROp,
        isInterleaving (opsUserMessage 1 true) (opsUserMessage 1 true) t = true →
        t.count ROp.startInference ≤ 1 ∧ startsBeforeFirstDone t ≤ 1) := by
  intro hcl
  have h := hcl ([ROp.appendUser, ROp.fetchHistory, ROp.startInference] ++
      opsUserMessage 1 true ++ [ROp.readChunk, ROp.appendAssistant, ROp.sendDone])
    (by decide)
  revert h
  decide

/-- C3 amended: a second `user_message` frame arriving while a turn is in
flight does trigger a second Turn Pipeline invocation — every interleaving of
two activations contains exactly two inference starts — while binary audio
frames are still accepted and buffered without touching any other state. -/
theorem second_turn_not_serialized :
    (∀ (k1 k2 : Nat) (p1 p2 : Bool) (t : List ROp),
        isInterleaving (opsUserMessage k1 p1) (opsUserMessage k2 p2) t = true →
        t.count ROp.startInference = 2) ∧
    (∀ (st : RealtimeState) (b : List Nat),
        handleRealtimeFrame st (.bin b) =
          { st with audioBuffers := st.audioBuffers ++ [b] }) := by
  constructor
  · intro k1 k2 p1 p2 t h
    rw [isInterleaving_count t _ _ h ROp.startInference,
        count_startInference_opsUserMessage, count_startInference_opsUserMessage]
  · intro st b
    rfl

/-- Witness for C3 amended at a concrete interleaving and a concrete binary
frame. -/
theorem second_turn_not_serialized_witness :
    ([ROp.appendUser, ROp.fetchHistory, ROp.startInference] ++ opsUserMessage 1 true ++
      [ROp.readChunk, ROp.appendAssistant, ROp.sendDone]).count ROp.startInference = 2 ∧
    handleRealtimeFrame (initRealtime [] []) (.bin [1, 2]) =
      { initRealtime [] [] with audioBuffers := (initRealtime [] []).audioBuffers ++ [[1, 2]] } :=
  ⟨second_turn_not_serialized.1 1 1 true true _ (by decide),
   second_turn_not_serialized.2 (initRealtime [] []) [1, 2]⟩

/-- C4 counterexample: a stored history already holding two system messages is
passed to the inference call with both still present — the canonical view does
not contain exactly one system message. -/
theorem canonical_single_system_counterexample :
    (((handleRealtimeFrame (initRealtime [systemMessage, systemMessage] [])
        (.text demoUserFrameText)).calls.headD []).filter isSystem).length = 2 ∧
    (((handleRealtimeFrame (initRealtime [systemMessage, systemMessage] [])
        (.text demoUserFrameText)).calls.headD []).filter isSystem).length ≠ 1 := by
  decide

/-- C4 amended: the canonical history contains at least one system message —
the default is prepended exactly when the fetched history has none, and a
history that already has system messages (duplicates included) is passed
unchanged — and a turn never persists a system message (the count of stored
system messages is preserved). -/
theorem canonical_single_system_amended :
    (∀ msgs : List Json, msgs.any isSystem = false →
        canonicalize msgs = systemMessage :: msgs ∧
        ((canonicalize msgs).filter isSystem).length = 1) ∧
    (∀ msgs : List Json, msgs.any isSystem = true → canonicalize msgs = msgs) ∧
    (∀ (st : RealtimeState) (s : List Char) (j : Json),
        jsonParse s = some j → jsTruthy j = true →
        typeIs j "user_message".data = true →
        ((handleRealtimeFrame st (.text s)).log.filter isSystem).length =
          (st.log.filter isSystem).length ∧
        (handleRealtimeFrame st (.text s)).calls =
          st.calls ++ [canonicalize (st.log ++ [userMsgOf j])]) := by
  refine ⟨?_, ?_, ?_⟩
  · intro msgs h
    have hnone : msgs.filter isSystem = [] := by
      rw [List.filter_eq_nil_iff]
      intro a ha
      have := (List.any_eq_false.mp h) a ha
      simpa using this
    constructor
    · simp [canonicalize, h]
    · simp [canonicalize, h, List.filter_cons, hnone,
        (by decide : isSystem systemMessage = true)]
  · intro msgs h
    simp [canonicalize, h]
  · intro st s j hp ht hum
    constructor
    · simp only [handleRealtimeFrame, hp, ht, hum]
      simp only [if_neg (by simp : ¬ (true = false)), if_pos trivial]
      simp only [List.append_assoc, List.filter_append, List.length_append]
      rw [show (List.filter isSystem [userMsgOf j]).length = 0 by
        simp [List.filter_cons, isSystem_userMsgOf]]
      split <;>
        simp [List.filter_cons, isSystem_assistantMsgOf]
    · simp only [handleRealtimeFrame, hp, ht, hum]
      simp only [if_neg (by simp : ¬ (true = false)), if_pos trivial]

/-- Witness for C4 amended on a concrete history and turn. -/
theorem canonical_single_system_amended_witness :
    (canonicalize [] = systemMessage :: [] ∧
      ((canonicalize []).filter isSystem).length = 1) ∧
    canonicalize [systemMessage, systemMessage] = [systemMessage, systemMessage] ∧
    (((handleRealtimeFrame (initRealtime [] [demoStream])
        (.text demoUserFrameText)).log.filter isSystem).length =
      ((initRealtime [] [demoStream]).log.filter isSystem).length ∧
     (handleRealtimeFrame (initRealtime [] [demoStream]) (.text demoUserFrameText)).calls =
      (initRealtime [] [demoStream]).calls ++
        [canonicalize ((initRealtime [] [demoStream]).log ++ [userMsgOf demoUserJson])]) :=
  ⟨canonical_single_system_amended.1 [] (by decide),
   canonical_single_system_amended.2.1 [systemMessage, systemMessage] (by decide),
   canonical_single_system_amended.2.2 (initRealtime [] [demoStream]) demoUserFrameText
     demoUserJson (by decide) (by decide) (by decide)⟩

/-- C5 counterexample: a payload whose `choices[0].delta.content` is present
(the empty string) yields no fragment, refuting the claimed rule that a
present content field is the fragment. -/
theorem delta_extractor_counterexample :
    extractDelta "\x7b\"choices\":[\x7b\"delta\":\x7b\"content\":\"\"\x7d\x7d]\x7d".data =
      DeltaResult.noFragment ∧
    jsonParse "\x7b\"choices\":[\x7b\"delta\":\x7b\"content\":\"\"\x7d\x7d]\x7d".data =
      some (Json.obj [("choices".data, Json.arr [Json.obj [("delta".data,
        Json.obj [("content".data, Json.str [])])]])]) ∧
    chainContent (Json.obj [("choices".data, Json.arr [Json.obj [("delta".data,
        Json.obj [("content".data, Json.str [])])]])]) = some (Json.str []) := by
  decide

/-- C5 amended: the Delta Extractor applies, in order: the `[DONE]` sentinel
is recognized with no fragment; a payload that fails to parse is silently
dropped; a direct string `response` field of nonzero length is the fragment;
otherwise a present and truthy `choices[0].delta.content` is the fragment;
otherwise there is no fragment. -/
theorem delta_extractor_rules :
    (∀ p : List Char, p = doneSentinel → extractDelta p = .terminal) ∧
    (∀ p : List Char, p ≠ doneSentinel → jsonParse p = none →
      extractDelta p = .dropped) ∧
    (∀ (p : List Char) (j : Json) (s : List Char), p ≠ doneSentinel →
      jsonParse p = some j → getField j "response".data = some (Json.str s) →
      s ≠ [] → extractDelta p = .fragment (Json.str s)) ∧
    (∀ (p : List Char) (j v : Json), p ≠ doneSentinel → jsonParse p = some j →
      (∀ s, getField j "response".data = some (Json.str s) → s = []) →
      chainContent j = some v → jsTruthy v = true →
      extractDelta p = .fragment v) ∧
    (∀ (p : List Char) (j : Json), p ≠ doneSentinel → jsonParse p = some j →
      (∀ s, getField j "response".data = some (Json.str s) → s = []) →
      (∀ v, chainContent j = some v → jsTruthy v = false) →
      extractDelta p = .noFragment) := by
  refine ⟨?_, ?_, ?_, ?_, ?_⟩
  · intro p h
    subst h
    simp [extractDelta]
  · intro p hne hp
    simp [extractDelta, hne, hp]
  · intro p j s hne hp hr hs
    simp [extractDelta, hne, hp, fragmentOf, hr, hs]
  · intro p j v hne hp hresp hchain htr
    have hfrag : fragmentOf j = some v := by
      unfold fragmentOf
      cases hr : getField j "response".data with
      | none => simp [altFragment, hchain, htr]
      | some val =>
        cases val with
        | str s2 =>
          have hs2 : s2 = [] := hresp s2 hr
          subst hs2
          simp [altFragment, hchain, htr]
        | null => simp [altFragment, hchain, htr]
        | bool b => simp [altFragment, hchain, htr]
        | num raw => simp [altFragment, hchain, htr]
        | arr xs => simp [altFragment, hchain, htr]
        | obj fs => simp [altFragment, hchain, htr]
    simp [extractDelta, hne, hp, hfrag]
  · intro p j hne hp hresp hchain
    have halt : altFragment j = none := by
      unfold altFragment
      cases hc : chainContent j with
      | none => rfl
      | some v => simp [hchain v hc]
    have hfrag : fragmentOf j = none := by
      unfold fragmentOf
      cases hr : getField j "response".data with
      | none => exact halt
      | some val =>
        cases val with
        | str s2 =>
          have hs2 : s2 = [] := hresp s2 hr
          subst hs2
          simp [halt]
        | null => exact halt
        | bool b => exact halt
        | num raw => exact halt
        | arr xs => exact halt
        | obj fs => exact halt
    simp [extractDelta, hne, hp, hfrag]

/-- Witness for C5 amended on a concrete payload of each shape. -/
theorem delta_extractor_rules_witness :
    extractDelta "[DONE]".data = .terminal ∧
    extractDelta "notjson".data = .dropped ∧
    extractDelta "\x7b\"response\":\"Hel\"\x7d".data = .fragment (Json.str "Hel".data) ∧
    extractDelta "\x7b\"choices\":[\x7b\"delta\":\x7b\"content\":\"lo\"\x7d\x7d]\x7d".data =
      .fragment (Json.str "lo".data) ∧
    extractDelta "\x7b\"ok\":true\x7d".data = .noFragment :=
  ⟨delta_extractor_rules.1 "[DONE]".data (by decide),
   delta_extractor_rules.2.1 "notjson".data (by decide) (by decide),
   delta_extractor_rules.2.2.1 "\x7b\"response\":\"Hel\"\x7d".data
     (Json.obj [("response".data, Json.str "Hel".data)]) "Hel".data
     (by decide) (by decide) (by decide) (by decide),
   delta_extractor_rules.2.2.2.1
     "\x7b\"choices\":[\x7b\"delta\":\x7b\"content\":\"lo\"\x7d\x7d]\x7d".data
     (Json.obj [("choices".data, Json.arr [Json.obj [("delta".data,
        Json.obj [("content".data, Json.str "lo".data)])]])])
     (Json.str "lo".data)
     (by decide) (by decide)
     (by
       intro s h
       have hn : getField (Json.obj [("choices".data, Json.arr [Json.obj [("delta".data,
           Json.obj [("content".data, Json.str "lo".data)])]])]) "response".data = none := by
         decide
       rw [hn] at h
       cases h)
     (by decide) (by decide),
   delta_extractor_rules.2.2.2.2 "\x7b\"ok\":true\x7d".data
     (Json.obj [("ok".data, Json.bool true)])
     (by decide) (by decide)
     (by
       intro s h
       have hn : getField (Json.obj [("ok".data, Json.bool true)]) "response".data = none := by
         decide
       rw [hn] at h
       cases h)
     (by
       intro v h
       have hn : chainContent (Json.obj [("ok".data, Json.bool true)]) = none := by decide
       rw [hn] at h
       cases h)⟩

/-- C6 counterexample: a non-JSON text frame is not ignored silently — the
top-level catch sends an `error` frame in response. -/
theorem malformed_frame_counterexample :
    (handleRealtimeFrame (initRealtime [] []) (.text "hello".data)).outbound =
      [Frame.error realtimeErrorText] ∧
    ([Frame.error realtimeErrorText] : List Frame) ≠ [] := by
  decide

/-- C6 amended: a text frame whose body is not valid JSON elicits exactly one
outbound `error` frame; the rest of the connection state is untouched, the
connection is not closed, and subsequent frames are processed as before. -/
theorem malformed_frame_amended :
    ∀ (st : RealtimeState) (s : List Char) (fs : List InFrame),
    jsonParse s = none →
    handleRealtimeFrame st (.text s) =
      { st with outbound := st.outbound ++ [Frame.error realtimeErrorText] } ∧
    processFrames st (.text s :: fs) =
      processFrames { st with outbound := st.outbound ++ [Frame.error realtimeErrorText] } fs := by
  intro st s fs h
  constructor
  · simp [handleRealtimeFrame, h]
  · simp [processFrames, handleRealtimeFrame, h]

/-- Witness for C6 amended at a concrete malformed frame. -/
theorem malformed_frame_amended_witness :
    handleRealtimeFrame (initRealtime [] []) (.text "hello".data) =
      { initRealtime [] [] with
        outbound := (initRealtime [] []).outbound ++ [Frame.error realtimeErrorText] } ∧
    processFrames (initRealtime [] []) (.text "hello".data :: []) =
      processFrames { initRealtime [] [] with
        outbound := (initRealtime [] []).outbound ++ [Frame.error realtimeErrorText] } [] :=
  malformed_frame_amended (initRealtime [] []) "hello".data [] (by decide)

/-- Modelled from the spec for comparison (claim C7): the `data:` marker is
stripped together with at most one single following space. -/
def specDataLineValue (line : List Char) : Option (List Char) :=
  if dataMarker.isPrefixOf line then
    some (match line.drop 5 with
          | ' ' :: r => r
          | r => r)
  else none

/-- C7 counterexample: on `"data:" ++ three spaces ++ "x"` the code trims all
the whitespace (`trimStart`), yielding `"x"` where the claimed
at-most-one-space rule yields `"  x"`. -/
theorem data_line_trim_counterexample :
    dataLineValue "data:   x".data = some "x".data ∧
    specDataLineValue "data:   x".data = some "  x".data ∧
    dataLineValue "data:   x".data ≠ specDataLineValue "data:   x".data := by
  decide

/-- C7 amended: a line beginning with the `data:` marker contributes the line
with the marker and all following whitespace (spaces and tabs alike) removed;
lines not beginning with the marker are dropped; a record none of whose lines
begins with the marker produces no event. -/
theorem data_line_trim_amended : ∀ (line r : List Char),
    (dataMarker.isPrefixOf line = true →
      dataLineValue line = some ((line.drop 5).dropWhile isJsSpaceChar)) ∧
    (dataMarker.isPrefixOf line = false → dataLineValue line = none) ∧
    ((∀ l ∈ splitOnNl r, dataMarker.isPrefixOf l = false) →
      recordEvents r = []) := by
  intro line r
  refine ⟨?_, ?_, ?_⟩
  · intro h
    simp [dataLineValue, h, jsTrimStart]
  · intro h
    simp [dataLineValue, h]
  · intro h
    have hnil : (splitOnNl r).filterMap dataLineValue = [] := by
      rw [List.filterMap_eq_nil_iff]
      intro l hl
      simp [dataLineValue, h l hl]
    simp [recordEvents, recordPayload, hnil]

/-- Witness for C7 amended on concrete lines and a concrete record. -/
theorem data_line_trim_amended_witness :
    dataLineValue "data: hi".data =
      some (("data: hi".data.drop 5).dropWhile isJsSpaceChar) ∧
    dataLineValue "nope".data = none ∧
    recordEvents "x\ny".data = [] :=
  ⟨(data_line_trim_amended "data: hi".data "x\ny".data).1 (by decide),
   (data_line_trim_amended "nope".data "x\ny".data).2.1 (by decide),
   (data_line_trim_amended "nope".data "x\ny".data).2.2 (by decide)⟩

/-- C8: three binary chunks of sizes 4, 4 and 2 followed by `audio_end` are
merged in arrival order into one 10-byte blob; the transcript placeholder
(also appended to the log as a user message) mentions 10 bytes; and the audio
buffer is empty after processing. -/
theorem audio_scenario :
    ∀ (b1 b2 b3 : List Nat) (stream : List (List Nat)) (log : List Json),
    b1.length = 4 → b2.length = 4 → b3.length = 2 →
    (processFrames (initRealtime log [stream])
        [.bin b1, .bin b2, .bin b3, .text audioEndFrameText]).merged = [b1 ++ b2 ++ b3] ∧
    audioPlaceholder (b1 ++ b2 ++ b3).length =
      "[Audio received 10 bytes] (transcription not configured)".data ∧
    (processFrames (initRealtime log [stream])
        [.bin b1, .bin b2, .bin b3, .text audioEndFrameText]).audioBuffers = [] ∧
    (processFrames (initRealtime log [stream])
        [.bin b1, .bin b2, .bin b3, .text audioEndFrameText]).outbound =
      Frame.transcript ("[Audio received 10 bytes] (transcription not configured)".data) ::
        ((runTurnEvents (decodeStream stream)).1 ++ [Frame.done]) ∧
    userTextMsg ("[Audio received 10 bytes] (transcription not configured)".data) ∈
      (processFrames (initRealtime log [stream])
        [.bin b1, .bin b2, .bin b3, .text audioEndFrameText]).log := by
  intro b1 b2 b3 stream log h1 h2 h3
  have hp : jsonParse audioEndFrameText =
      some (Json.obj [("type".data, Json.str "audio_end".data)]) := by decide
  have ht : jsTruthy (Json.obj [("type".data, Json.str "audio_end".data)]) = true := by
    decide
  have hu : typeIs (Json.obj [("type".data, Json.str "audio_end".data)])
      "user_message".data = false := by decide
  have ha : typeIs (Json.obj [("type".data, Json.str "audio_end".data)])
      "audio_end".data = true := by decide
  have hsteps : processFrames (initRealtime log [stream])
      [.bin b1, .bin b2, .bin b3, .text audioEndFrameText] =
      handleRealtimeFrame
        { audioBuffers := [b1, b2, b3], log := log, outbound := [],
          streams := [stream], calls := [], merged := [] }
        (.text audioEndFrameText) := rfl
  rw [hsteps]
  simp only [handleRealtimeFrame, hp]
  rw [if_neg (by simp [ht]), if_neg (by simp [hu]), if_pos (by simp [ha])]
  have hflat2 : ([b1, b2, b3] : List (List Nat)).flatten = b1 ++ (b2 ++ b3) := by simp
  rw [hflat2]
  have hph2 : audioPlaceholder (b1 ++ (b2 ++ b3)).length =
      "[Audio received 10 bytes] (transcription not configured)".data := by
    have hlen : (b1 ++ (b2 ++ b3)).length = 10 := by simp [h1, h2, h3]
    rw [hlen]
    decide
  rw [hph2]
  have hph3 : audioPlaceholder (b1 ++ b2 ++ b3).length =
      "[Audio received 10 bytes] (transcription not configured)".data := by
    have hlen : (b1 ++ b2 ++ b3).length = 10 := by simp [h1, h2, h3]
    rw [hlen]
    decide
  refine ⟨by simp, hph3, by simp, by simp, by simp⟩

/-- Witness for C8 at concrete bytes. -/
theorem audio_scenario_witness :
    (processFrames (initRealtime [] [[]])
        [.bin [1, 2, 3, 4], .bin [5, 6, 7, 8], .bin [9, 10], .text audioEndFrameText]).merged =
      [[1, 2, 3, 4] ++ [5, 6, 7, 8] ++ [9, 10]] ∧
    audioPlaceholder ([1, 2, 3, 4] ++ [5, 6, 7, 8] ++ ([9, 10] : List Nat)).length =
      "[Audio received 10 bytes] (transcription not configured)".data ∧
    (processFrames (initRealtime [] [[]])
        [.bin [1, 2, 3, 4], .bin [5, 6, 7, 8], .bin [9, 10], .text audioEndFrameText]).audioBuffers = [] ∧
    (processFrames (initRealtime [] [[]])
        [.bin [1, 2, 3, 4], .bin [5, 6, 7, 8], .bin [9, 10], .text audioEndFrameText]).outbound =
      Frame.transcript ("[Audio received 10 bytes] (transcription not configured)".data) ::
        ((runTurnEvents (decodeStream [[]])).1 ++ [Frame.done]) ∧
    userTextMsg ("[Audio received 10 bytes] (transcription not configured)".data) ∈
      (processFrames (initRealtime [] [[]])
        [.bin [1, 2, 3, 4], .bin [5, 6, 7, 8], .bin [9, 10], .text audioEndFrameText]).log :=
  audio_scenario [1, 2, 3, 4] [5, 6, 7, 8] [9, 10] [] []
    (by decide) (by decide) (by decide)

end LlmChat
